import Mathlib

/-!
Formal model of the RITA beacon-proxy scoring core
(`pkg/beaconproxy/analyzer.go`).

Machine integers (`int64`, `int`) are modelled as `ℤ`; none of the verified
properties depend on 64-bit wraparound.  `float64` score arithmetic is
modelled exactly over `ℚ`.  Slice indexing that can panic in Go is modelled
with `Option`: a `none` result marks an out-of-bounds access (or a negative
`make` length).  Store queries issued by the host-max reconciler are modelled
as oracles of type `Except Unit Nat` (an `Except.error` models a failed read,
`Except.ok n` a counted query returning `n`).
-/

namespace BeaconProxy

/-- Modelled from the spec: `util.Round`, used for the quartile indices; the
`util` package is not under `src/`.  The spec fixes the rounding mode as
half-away-from-zero ("on tie at 0.5 the larger index wins"). -/
def Round (q : ℚ) : ℤ := if 0 ≤ q then ⌊q + 1/2⌋ else ⌈q - 1/2⌉

/-- Modelled from the spec: `util.Abs` (absolute value of an `int64`); the
`util` package is not under `src/`. -/
def Abs (a : ℤ) : ℤ := if a < 0 then -a else a

/-- Modelled from the spec: `sort.Sort(util.SortableInt64(..))` sorts an
`int64` slice ascending; the `util` package is not under `src/`. -/
def sortInt64 (l : List ℤ) : List ℤ := List.insertionSort (· ≤ ·) l

/-- Checked slice indexing at a (possibly negative) Go `int` index.
`none` models an index-out-of-range panic. -/
def getI (l : List ℤ) (i : ℤ) : Option ℤ :=
  if 0 ≤ i then l[i.toNat]? else none

/-! ## Data model (`uconnproxy.Input`, `data.UniqueIP`, the update envelope) -/

/-- The unique source IP of a pair (`data.UniqueIP`). -/
structure UniqueIP where
  ip : String
  networkUUID : String
  networkName : String

/-- The pair identifier `entry.Hosts` (`uconnproxy` pair key):
source IP and the destination FQDN. -/
structure Hosts where
  srcIP : String
  srcNetworkUUID : String
  srcNetworkName : String
  fqdn : String

/-- `entry.Hosts.UniqueSrcIP.Unpair()`. -/
def Hosts.unpairSrc (h : Hosts) : UniqueIP :=
  { ip := h.srcIP, networkUUID := h.srcNetworkUUID, networkName := h.srcNetworkName }

/-- One analysis input record (`uconnproxy.Input`).  `tsList = none` models a
nil timestamp slice (the strobe signal); `some l` a present slice, possibly
empty. -/
structure Input where
  hosts : Hosts
  proxy : String
  connectionCount : ℤ
  tsList : Option (List ℤ)

/-- The full scoring document written by the pair-record update
(the `query["$set"]` map built in `start`, analyzer.go lines 175–192). -/
structure PairRecord where
  connection_count : ℤ
  proxy : String
  src_network_name : String
  ts_range : ℤ
  ts_mode : ℤ
  ts_mode_count : ℤ
  ts_intervals : List ℤ
  ts_interval_counts : List ℤ
  ts_dispersion : ℤ
  ts_skew : ℚ
  ts_conns_score : ℚ
  ts_score : ℚ
  tslist : List ℤ
  score : ℚ
  cid : ℤ
  strobeFQDN : Bool

/-- The shapes of the BSON update documents the analyzer builds.
`empty` is the zero value `bson.M` of an untouched `updateInfo`. -/
inductive MQuery
  | empty
  | setStrobe
  | pairSet (r : PairRecord)
  | setDatMax (score : ℚ) (fqdn : String) (cid : ℤ)
  | pushDat (score : ℚ) (fqdn : String) (cid : ℤ)

/-- The shapes of the BSON selectors the analyzer builds. -/
inductive Selector
  | empty
  | pair (h : Hosts)
  | srcExactMatch (src : UniqueIP) (fqdn : String)
  | srcLowerMatch (src : UniqueIP) (cid : ℤ) (score : ℚ)
  | src (u : UniqueIP)

/-- One sub-update (`updateInfo`); the zero value is the noop. -/
structure UpdateInfo where
  query : MQuery := MQuery.empty
  selector : Selector := Selector.empty

/-- The update envelope (`update`) handed to the analyzed callback. -/
structure Update where
  uconnproxy : UpdateInfo := {}
  beacon : UpdateInfo := {}
  hostBeacon : UpdateInfo := {}

/-- The per-run scoring window state of the `analyzer` struct. -/
structure Analyzer where
  tsMin : ℤ
  tsMax : ℤ
  chunk : ℤ

/-! ## Statistics kernel (`createCountMap`, `countAndRemoveConsecutiveDuplicates`,
and the delta/quartile/MAD computation inside `start`) -/

/-- The loop of `countAndRemoveConsecutiveDuplicates` (analyzer.go lines
245–251): walk the remaining slice, appending each element that differs from
its predecessor and bumping its counter. -/
def carcdLoop (last : ℤ) (counts : ℤ → ℤ) : List ℤ → List ℤ × (ℤ → ℤ)
  | [] => ([], counts)
  | x :: rest =>
    let counts1 : ℤ → ℤ := fun v => if v = x then counts v + 1 else counts v
    let r := carcdLoop x counts1 rest
    (if last ≠ x then x :: r.1 else r.1, r.2)

/-- `countAndRemoveConsecutiveDuplicates` on a nonempty slice with head `x`:
seed `result` and `counts` with the first element, then run the loop. -/
def countAndRemoveConsecutiveDuplicatesCore (x : ℤ) (rest : List ℤ) :
    List ℤ × (ℤ → ℤ) :=
  let counts0 : ℤ → ℤ := fun v => if v = x then 1 else 0
  let r := carcdLoop x counts0 rest
  (x :: r.1, r.2)

/-- `countAndRemoveConsecutiveDuplicates` (analyzer.go lines 236–253).
The access `numberList[0]` panics on an empty slice, modelled by `none`. -/
def countAndRemoveConsecutiveDuplicates : List ℤ → Option (List ℤ × (ℤ → ℤ))
  | [] => none
  | x :: rest => some (countAndRemoveConsecutiveDuplicatesCore x rest)

/-- The body of `createCountMap` on a nonempty sorted slice with head `d0`:
distinct values, their counts, and the mode found by a strict-improvement
scan seeded with `distinct[0]`. -/
def createCountMapCore (d0 : ℤ) (rest : List ℤ) : List ℤ × List ℤ × ℤ × ℤ :=
  let p := countAndRemoveConsecutiveDuplicatesCore d0 rest
  let distinct := p.1
  let countsMap := p.2
  let countsArr := distinct.map countsMap
  let res := distinct.foldl
    (fun q datum => if countsMap datum > q.2 then (datum, countsMap datum) else q)
    (d0, countsMap d0)
  (distinct, countsArr, res.1, res.2)

/-- `createCountMap` (analyzer.go lines 214–229): distinct data array, count
array, the mode, and the mode count.  An empty input panics inside
`countAndRemoveConsecutiveDuplicates`, modelled by `none`. -/
def createCountMap : List ℤ → Option (List ℤ × List ℤ × ℤ × ℤ)
  | [] => none
  | x :: rest => some (createCountMapCore x rest)

/-- The outputs of the timestamp statistics kernel computed inside `start`
(analyzer.go lines 103–148) for a non-strobe entry. -/
structure TsStats where
  sortedDiff : List ℤ
  tsLow : ℤ
  tsMid : ℤ
  tsHigh : ℤ
  tsSkew : ℚ
  tsMadm : ℤ
  tsIntervalRange : ℤ
  intervals : List ℤ
  intervalCounts : List ℤ
  tsMode : ℤ
  tsModeCount : ℤ

/-- The delta loop of `start` (analyzer.go lines 106–109): the slice of
pairwise differences `tsList[i+1] - tsList[i]` of length `len(tsList) - 1`. -/
def diffList (ts : List ℤ) : List ℤ := List.zipWith (· - ·) ts.tail ts

/-- The timestamp statistics kernel of `start` (analyzer.go lines 103–148):
deltas, ascending sort, quartiles by rounded nearest rank, Bowley skew with
degeneracy guards, median absolute deviation about the median, range, and the
interval histogram.  `none` models a panic: a negative `make` length when the
slice is empty, or an out-of-bounds index. -/
def analyzeTS (tsList : List ℤ) : Option TsStats :=
  let tsLength : ℤ := (tsList.length : ℤ) - 1
  if tsLength < 0 then none else
  let diffS := sortInt64 (diffList tsList)
  let kQ : ℚ := ((tsList.length : ℤ) - 2 : ℤ)
  do
    let tsLow ← getI diffS (Round ((1/4 : ℚ) * kQ))
    let tsMid ← getI diffS (Round ((1/2 : ℚ) * kQ))
    let tsHigh ← getI diffS (Round ((3/4 : ℚ) * kQ))
    let tsBowleyNum := tsLow + tsHigh - 2 * tsMid
    let tsBowleyDen := tsHigh - tsLow
    let tsSkew : ℚ :=
      if tsBowleyDen ≠ 0 ∧ tsMid ≠ tsLow ∧ tsMid ≠ tsHigh then
        (tsBowleyNum : ℚ) / (tsBowleyDen : ℚ)
      else 0
    let devs := diffS.map (fun d => Abs (d - tsMid))
    let devsS := sortInt64 devs
    let tsMadm ← getI devsS (Round ((1/2 : ℚ) * kQ))
    let rangeHi ← getI diffS (tsLength - 1)
    let rangeLo ← getI diffS 0
    let cm ← createCountMap diffS
    some
      { sortedDiff := diffS
        tsLow := tsLow
        tsMid := tsMid
        tsHigh := tsHigh
        tsSkew := tsSkew
        tsMadm := tsMadm
        tsIntervalRange := rangeHi - rangeLo
        intervals := cm.1
        intervalCounts := cm.2.1
        tsMode := cm.2.2.1
        tsModeCount := cm.2.2.2 }

/-! ## Host-max reconciler (`hostBeaconQuery`, analyzer.go lines 255–405) -/

/-- `hostBeaconQuery` with the three counted store queries abstracted as
oracles, consulted in program order: exact match on the fqdn (any chunk),
then lower match in this chunk, then upper match in this chunk.  An
`Except.error` on a consulted query models a failed read; every error path
returns the zero `updateInfo` (a noop). -/
def hostBeaconQuery (a : Analyzer) (score : ℚ) (src : UniqueIP) (fqdn : String)
    (exactQ lowerQ upperQ : Except Unit ℕ) : UpdateInfo :=
  match exactQ with
  | Except.error _ => {}
  | Except.ok nExactMatches =>
    if nExactMatches > 0 then
      { query := MQuery.setDatMax score fqdn a.chunk
        selector := Selector.srcExactMatch src fqdn }
    else
      match lowerQ with
      | Except.error _ => {}
      | Except.ok nLowerMatches =>
        if nLowerMatches = 0 then
          match upperQ with
          | Except.error _ => {}
          | Except.ok nUpperMatches =>
            if nUpperMatches = 0 then
              { query := MQuery.pushDat score fqdn a.chunk
                selector := Selector.src src }
            else {}
        else
          { query := MQuery.setDatMax score fqdn a.chunk
            selector := Selector.srcLowerMatch src a.chunk score }

/-- One `dat` element of a source host document
(`max_beacon_proxy_score`, `mbproxy`, `cid`). -/
structure DatElem where
  maxBeaconProxyScore : ℚ
  mbproxy : String
  cid : ℤ

/-- Count of the exact-match query: does the source host document hold a
`dat` element whose `mbproxy` equals this fqdn (any chunk)? -/
def countExactMatches (dat : List DatElem) (fqdn : String) : ℕ :=
  if ∃ e ∈ dat, e.mbproxy = fqdn then 1 else 0

/-- Count of the lower-match query: does the source host document hold a
`dat` element in this chunk whose score is at most the candidate score? -/
def countLowerMatches (dat : List DatElem) (chunk : ℤ) (score : ℚ) : ℕ :=
  if ∃ e ∈ dat, e.cid = chunk ∧ e.maxBeaconProxyScore ≤ score then 1 else 0

/-- Count of the upper-match query: does the source host document hold a
`dat` element in this chunk whose score is at least the candidate score? -/
def countUpperMatches (dat : List DatElem) (chunk : ℤ) (score : ℚ) : ℕ :=
  if ∃ e ∈ dat, e.cid = chunk ∧ score ≤ e.maxBeaconProxyScore then 1 else 0

/-- `hostBeaconQuery` run against a fixed store state: the `dat` list of the
source host document determines the three counted queries. -/
def hostBeaconQueryStore (a : Analyzer) (score : ℚ) (src : UniqueIP)
    (fqdn : String) (dat : List DatElem) : UpdateInfo :=
  hostBeaconQuery a score src fqdn
    (Except.ok (countExactMatches dat fqdn))
    (Except.ok (countLowerMatches dat a.chunk score))
    (Except.ok (countUpperMatches dat a.chunk score))

/-! ## Worker body (`start`, analyzer.go lines 69–205) -/

/-- The body of the worker loop in `start` for a single entry: the strobe
path when `tsList` is nil, otherwise the statistics kernel, the three
component scores, the pair-record update and the host-max reconciliation.
`none` models a panic inside the kernel. -/
def startEntry (a : Analyzer) (entry : Input)
    (exactQ lowerQ upperQ : Except Unit ℕ) : Option Update :=
  match entry.tsList with
  | none =>
    some { uconnproxy := { query := MQuery.setStrobe
                           selector := Selector.pair entry.hosts } }
  | some ts =>
    match analyzeTS ts with
    | none => none
    | some st =>
      let tsSkewScore : ℚ := 1 - |st.tsSkew|
      let tsMadmScore0 : ℚ := 1 - (st.tsMadm : ℚ) / 30
      let tsMadmScore : ℚ := if tsMadmScore0 < 0 then 0 else tsMadmScore0
      let tsConnDiv : ℚ := ((a.tsMax : ℚ) - (a.tsMin : ℚ)) / 10
      let tsConnCountScore0 : ℚ := (entry.connectionCount : ℚ) / tsConnDiv
      let tsConnCountScore : ℚ :=
        if tsConnCountScore0 > 1 then 1 else tsConnCountScore0
      let tsSum : ℚ := tsSkewScore + tsMadmScore + tsConnCountScore
      let tsScore : ℚ := (⌈(tsSum / 3) * 1000⌉ : ℚ) / 1000
      let score : ℚ := (⌈(tsSum / 3) * 1000⌉ : ℚ) / 1000
      let pr : PairRecord :=
        { connection_count := entry.connectionCount
          proxy := entry.proxy
          src_network_name := entry.hosts.srcNetworkName
          ts_range := st.tsIntervalRange
          ts_mode := st.tsMode
          ts_mode_count := st.tsModeCount
          ts_intervals := st.intervals
          ts_interval_counts := st.intervalCounts
          ts_dispersion := st.tsMadm
          ts_skew := st.tsSkew
          ts_conns_score := tsConnCountScore
          ts_score := tsScore
          tslist := ts
          score := score
          cid := a.chunk
          strobeFQDN := false }
      some { beacon := { query := MQuery.pairSet pr
                         selector := Selector.pair entry.hosts }
             hostBeacon := hostBeaconQuery a score entry.hosts.unpairSrc
               entry.hosts.fqdn exactQ lowerQ upperQ }

/-! ## Basic lemmas about the helpers -/

theorem Abs_eq_abs (a : ℤ) : Abs a = |a| := by
  unfold Abs
  rcases lt_or_ge a 0 with h | h
  · rw [if_pos h, abs_of_neg h]
  · rw [if_neg (not_lt.mpr h), abs_of_nonneg h]

theorem Abs_nonneg (a : ℤ) : 0 ≤ Abs a := by
  rw [Abs_eq_abs]; exact abs_nonneg a

theorem sortInt64_sorted (l : List ℤ) : List.Sorted (· ≤ ·) (sortInt64 l) :=
  List.sorted_insertionSort _ l

theorem sortInt64_perm (l : List ℤ) : List.Perm (sortInt64 l) l :=
  List.perm_insertionSort _ l

theorem sortInt64_length (l : List ℤ) : (sortInt64 l).length = l.length :=
  (sortInt64_perm l).length_eq

theorem getI_eq_some (l : List ℤ) (i : ℤ) (h0 : 0 ≤ i)
    (h : i.toNat < l.length) : getI l i = some (l.getD i.toNat 0) := by
  unfold getI
  rw [if_pos h0, List.getElem?_eq_getElem h, List.getD_eq_getElem l 0 h]

theorem getI_nil (i : ℤ) : getI [] i = none := by
  unfold getI
  split
  · simp
  · rfl

theorem mem_of_getI {l : List ℤ} {i : ℤ} {v : ℤ} (h : getI l i = some v) :
    v ∈ l := by
  unfold getI at h
  split at h
  · exact List.getElem?_mem h
  · exact absurd h (by simp)

theorem Round_nonneg {q : ℚ} (hq : 0 ≤ q) : 0 ≤ Round q := by
  unfold Round
  rw [if_pos hq]
  exact Int.le_floor.mpr (by push_cast; linarith)

theorem Round_le_of_le {c : ℚ} {k : ℤ} (hk : 0 ≤ k) (hc0 : 0 ≤ c)
    (hc : c ≤ 3/4) : Round (c * (k : ℚ)) ≤ k := by
  have hkq : (0 : ℚ) ≤ (k : ℚ) := by exact_mod_cast hk
  have hq : 0 ≤ c * (k : ℚ) := mul_nonneg hc0 hkq
  unfold Round
  rw [if_pos hq]
  have hck : c * (k : ℚ) ≤ 3/4 * (k : ℚ) := mul_le_mul_of_nonneg_right hc hkq
  have hlt : c * (k : ℚ) + 1/2 < ((k + 1 : ℤ) : ℚ) := by push_cast; linarith
  have := Int.floor_lt.mpr hlt
  omega

theorem Round_mono {p q : ℚ} (hp : 0 ≤ p) (h : p ≤ q) : Round p ≤ Round q := by
  unfold Round
  rw [if_pos hp, if_pos (hp.trans h)]
  exact Int.floor_le_floor (by linarith)

theorem getD_le_getD_of_sorted {l : List ℤ} (hs : List.Sorted (· ≤ ·) l)
    {i j : ℕ} (hij : i ≤ j) (hj : j < l.length) : l.getD i 0 ≤ l.getD j 0 := by
  have hi : i < l.length := lt_of_le_of_lt hij hj
  rw [List.getD_eq_getElem l 0 hi, List.getD_eq_getElem l 0 hj]
  rcases eq_or_lt_of_le hij with rfl | hlt
  · exact le_refl _
  · have := hs.rel_get_of_lt (a := ⟨i, hi⟩) (b := ⟨j, hj⟩) (by exact hlt)
    simpa [List.get_eq_getElem] using this

theorem getD_mem_of_lt {l : List ℤ} {i : ℕ} (hi : i < l.length) :
    l.getD i 0 ∈ l := by
  rw [List.getD_eq_getElem l 0 hi]
  exact List.getElem_mem hi

/-! ## Characterization of the kernel on valid inputs -/

theorem diffList_length (ts : List ℤ) : (diffList ts).length = ts.length - 1 := by
  simp only [diffList, List.length_zipWith, List.length_tail]
  omega

/-- Total mirror of the kernel for inputs of length at least 2: every checked
access replaced by `getD` at the same index. -/
def analyzeTSTotal (ts : List ℤ) : TsStats :=
  let diffS := sortInt64 (diffList ts)
  let kQ : ℚ := ((ts.length : ℤ) - 2 : ℤ)
  let tsLow := diffS.getD (Round ((1/4 : ℚ) * kQ)).toNat 0
  let tsMid := diffS.getD (Round ((1/2 : ℚ) * kQ)).toNat 0
  let tsHigh := diffS.getD (Round ((3/4 : ℚ) * kQ)).toNat 0
  let tsBowleyNum := tsLow + tsHigh - 2 * tsMid
  let tsBowleyDen := tsHigh - tsLow
  let tsSkew : ℚ :=
    if tsBowleyDen ≠ 0 ∧ tsMid ≠ tsLow ∧ tsMid ≠ tsHigh then
      (tsBowleyNum : ℚ) / (tsBowleyDen : ℚ)
    else 0
  let devs := diffS.map (fun d => Abs (d - tsMid))
  let devsS := sortInt64 devs
  let tsMadm := devsS.getD (Round ((1/2 : ℚ) * kQ)).toNat 0
  let rangeHi := diffS.getD ((ts.length : ℤ) - 1 - 1).toNat 0
  let rangeLo := diffS.getD (0 : ℤ).toNat 0
  let cm := createCountMapCore (diffS.headD 0) diffS.tail
  { sortedDiff := diffS
    tsLow := tsLow
    tsMid := tsMid
    tsHigh := tsHigh
    tsSkew := tsSkew
    tsMadm := tsMadm
    tsIntervalRange := rangeHi - rangeLo
    intervals := cm.1
    intervalCounts := cm.2.1
    tsMode := cm.2.2.1
    tsModeCount := cm.2.2.2 }

theorem createCountMap_eq_core (l : List ℤ) (h : l ≠ []) :
    createCountMap l = some (createCountMapCore (l.headD 0) l.tail) := by
  cases l with
  | nil => exact absurd rfl h
  | cons x r => rfl

theorem analyzeTS_eq_total (ts : List ℤ) (h2 : 2 ≤ ts.length) :
    analyzeTS ts = some (analyzeTSTotal ts) := by
  have hn : (2 : ℤ) ≤ (ts.length : ℤ) := by exact_mod_cast h2
  have hn2 : (0 : ℤ) ≤ (ts.length : ℤ) - 2 := by omega
  have hLlen : (sortInt64 (diffList ts)).length = ts.length - 1 := by
    rw [sortInt64_length, diffList_length]
  have hq0 : ∀ c : ℚ, 0 ≤ c →
      0 ≤ Round (c * ((((ts.length : ℤ) - 2 : ℤ)) : ℚ)) := by
    intro c hc
    exact Round_nonneg (mul_nonneg hc (by exact_mod_cast hn2))
  have hqb : ∀ c : ℚ, 0 ≤ c → c ≤ 3/4 →
      (Round (c * ((((ts.length : ℤ) - 2 : ℤ)) : ℚ))).toNat < ts.length - 1 := by
    intro c hc0 hc1
    have hle : Round (c * ((((ts.length : ℤ) - 2 : ℤ)) : ℚ)) ≤ (ts.length : ℤ) - 2 :=
      Round_le_of_le hn2 hc0 hc1
    omega
  have e1 := getI_eq_some (sortInt64 (diffList ts))
    (Round ((1/4 : ℚ) * ((((ts.length : ℤ) - 2 : ℤ)) : ℚ)))
    (hq0 _ (by norm_num)) (by rw [hLlen]; exact hqb _ (by norm_num) (by norm_num))
  have e2 := getI_eq_some (sortInt64 (diffList ts))
    (Round ((1/2 : ℚ) * ((((ts.length : ℤ) - 2 : ℤ)) : ℚ)))
    (hq0 _ (by norm_num)) (by rw [hLlen]; exact hqb _ (by norm_num) (by norm_num))
  have e3 := getI_eq_some (sortInt64 (diffList ts))
    (Round ((3/4 : ℚ) * ((((ts.length : ℤ) - 2 : ℤ)) : ℚ)))
    (hq0 _ (by norm_num)) (by rw [hLlen]; exact hqb _ (by norm_num) (by norm_num))
  have e4 := getI_eq_some
    (sortInt64 ((sortInt64 (diffList ts)).map (fun d => Abs (d -
      (sortInt64 (diffList ts)).getD
        (Round ((1/2 : ℚ) * ((((ts.length : ℤ) - 2 : ℤ)) : ℚ))).toNat 0))))
    (Round ((1/2 : ℚ) * ((((ts.length : ℤ) - 2 : ℤ)) : ℚ)))
    (hq0 _ (by norm_num))
    (by
      rw [sortInt64_length, List.length_map, hLlen]
      exact hqb _ (by norm_num) (by norm_num))
  have e5 := getI_eq_some (sortInt64 (diffList ts)) ((ts.length : ℤ) - 1 - 1)
    (by omega) (by rw [hLlen]; omega)
  have e6 := getI_eq_some (sortInt64 (diffList ts)) 0 le_rfl
    (by rw [hLlen]; omega)
  have e7 := createCountMap_eq_core (sortInt64 (diffList ts))
    (by
      intro hnil
      have := hLlen
      rw [hnil] at this
      simp at this
      omega)
  simp only [analyzeTS, analyzeTSTotal]
  rw [if_neg (by omega : ¬ ((ts.length : ℤ) - 1 < 0))]
  simp only [e1, e2, e3, e4, e5, e6, e7, Option.bind_eq_bind, Option.some_bind]

theorem quartIdx_le {c : ℚ} (hc0 : 0 ≤ c) (hc1 : c ≤ 3/4) {n : ℕ} (h2 : 2 ≤ n) :
    (Round (c * (((n : ℤ) - 2 : ℤ) : ℚ))).toNat ≤ n - 2 := by
  have hn2 : (0 : ℤ) ≤ (n : ℤ) - 2 := by omega
  have := Round_le_of_le hn2 hc0 hc1
  omega

theorem quartIdx_mono {c d : ℚ} (hc0 : 0 ≤ c) (hcd : c ≤ d) {n : ℕ} (h2 : 2 ≤ n) :
    (Round (c * (((n : ℤ) - 2 : ℤ) : ℚ))).toNat ≤
      (Round (d * (((n : ℤ) - 2 : ℤ) : ℚ))).toNat := by
  have hn2q : (0 : ℚ) ≤ ((((n : ℤ) - 2 : ℤ)) : ℚ) := by
    have : (0 : ℤ) ≤ (n : ℤ) - 2 := by omega
    exact_mod_cast this
  exact Int.toNat_le_toNat
    (Round_mono (mul_nonneg hc0 hn2q) (mul_le_mul_of_nonneg_right hcd hn2q))

theorem analyzeTSTotal_quartiles_mono (ts : List ℤ) (h2 : 2 ≤ ts.length) :
    (analyzeTSTotal ts).tsLow ≤ (analyzeTSTotal ts).tsMid ∧
    (analyzeTSTotal ts).tsMid ≤ (analyzeTSTotal ts).tsHigh := by
  have hLlen : (sortInt64 (diffList ts)).length = ts.length - 1 := by
    rw [sortInt64_length, diffList_length]
  constructor
  · simp only [analyzeTSTotal]
    refine getD_le_getD_of_sorted (sortInt64_sorted _)
      (quartIdx_mono (by norm_num) (by norm_num) h2) ?_
    rw [hLlen]
    have := quartIdx_le (c := 1/2) (by norm_num) (by norm_num) h2
    omega
  · simp only [analyzeTSTotal]
    refine getD_le_getD_of_sorted (sortInt64_sorted _)
      (quartIdx_mono (by norm_num) (by norm_num) h2) ?_
    rw [hLlen]
    have := quartIdx_le (c := 3/4) (by norm_num) (by norm_num) h2
    omega

theorem analyzeTSTotal_skew_eq (ts : List ℤ) :
    (analyzeTSTotal ts).tsSkew =
      (if (analyzeTSTotal ts).tsHigh ≠ (analyzeTSTotal ts).tsLow ∧
          (analyzeTSTotal ts).tsMid ≠ (analyzeTSTotal ts).tsLow ∧
          (analyzeTSTotal ts).tsMid ≠ (analyzeTSTotal ts).tsHigh then
        (((analyzeTSTotal ts).tsLow + (analyzeTSTotal ts).tsHigh -
            2 * (analyzeTSTotal ts).tsMid : ℤ) : ℚ) /
          (((analyzeTSTotal ts).tsHigh - (analyzeTSTotal ts).tsLow : ℤ) : ℚ)
      else 0) := by
  simp only [analyzeTSTotal, sub_ne_zero]

theorem analyzeTSTotal_skew_bound (ts : List ℤ) (h2 : 2 ≤ ts.length) :
    |(analyzeTSTotal ts).tsSkew| ≤ 1 := by
  obtain ⟨hab, hbc⟩ := analyzeTSTotal_quartiles_mono ts h2
  rw [analyzeTSTotal_skew_eq ts]
  set a := (analyzeTSTotal ts).tsLow
  set b := (analyzeTSTotal ts).tsMid
  set c := (analyzeTSTotal ts).tsHigh
  split
  · next hcond =>
    obtain ⟨hca, _, _⟩ := hcond
    have hden : (0 : ℤ) < c - a := by
      rcases lt_or_eq_of_le (hab.trans hbc) with h | h
      · omega
      · exact absurd h.symm hca
    have hdenq : (0 : ℚ) < ((c - a : ℤ) : ℚ) := by exact_mod_cast hden
    have habq : ((a : ℚ)) ≤ ((b : ℚ)) := by exact_mod_cast hab
    have hbcq : ((b : ℚ)) ≤ ((c : ℚ)) := by exact_mod_cast hbc
    rw [abs_le]
    constructor
    · rw [le_div_iff₀ hdenq]
      push_cast
      linarith
    · rw [div_le_one hdenq]
      push_cast
      linarith
  · simp

theorem analyzeTSTotal_madm_nonneg (ts : List ℤ) (h2 : 2 ≤ ts.length) :
    0 ≤ (analyzeTSTotal ts).tsMadm := by
  have hLlen : (sortInt64 (diffList ts)).length = ts.length - 1 := by
    rw [sortInt64_length, diffList_length]
  simp only [analyzeTSTotal]
  set devsS := sortInt64 ((sortInt64 (diffList ts)).map (fun d => Abs (d -
    (sortInt64 (diffList ts)).getD
      (Round ((1/2 : ℚ) * (((ts.length : ℤ) - 2 : ℤ) : ℚ))).toNat 0))) with hdevs
  have hlen : devsS.length = ts.length - 1 := by
    rw [hdevs, sortInt64_length, List.length_map, hLlen]
  have hmem : devsS.getD (Round ((1/2 : ℚ) *
      (((ts.length : ℤ) - 2 : ℤ) : ℚ))).toNat 0 ∈ devsS := by
    apply getD_mem_of_lt
    rw [hlen]
    have := quartIdx_le (c := 1/2) (by norm_num) (by norm_num) h2
    omega
  rw [hdevs] at hmem
  have hmem2 := (sortInt64_perm _).mem_iff.mp hmem
  rw [List.mem_map] at hmem2
  obtain ⟨d, _, hd⟩ := hmem2
  rw [← hd]
  exact Abs_nonneg _

/-! ## Histogram and mode lemmas (`createCountMap`) -/

theorem carcdLoop_counts (rest : List ℤ) : ∀ (last : ℤ) (counts : ℤ → ℤ) (v : ℤ),
    (carcdLoop last counts rest).2 v = counts v + (rest.count v : ℤ) := by
  induction rest with
  | nil => intro last counts v; simp [carcdLoop]
  | cons x r ih =>
    intro last counts v
    simp only [carcdLoop]
    rw [ih]
    by_cases hv : v = x
    · subst hv
      simp [List.count_cons]
      omega
    · have : (x :: r).count v = r.count v := by
        simp [List.count_cons, hv, Ne.symm hv]
      rw [this, if_neg hv]

theorem carcdCore_counts (x : ℤ) (rest : List ℤ) (v : ℤ) :
    (countAndRemoveConsecutiveDuplicatesCore x rest).2 v =
      (((x :: rest).count v : ℕ) : ℤ) := by
  unfold countAndRemoveConsecutiveDuplicatesCore
  rw [carcdLoop_counts]
  by_cases hv : v = x
  · subst hv
    simp [List.count_cons]
    omega
  · simp [List.count_cons, hv, Ne.symm hv]

theorem carcdLoop_result (rest : List ℤ) : ∀ (last : ℤ) (counts : ℤ → ℤ),
    List.Sorted (· ≤ ·) (last :: rest) →
    List.Sorted (· < ·) ((carcdLoop last counts rest).1) ∧
    (∀ v ∈ (carcdLoop last counts rest).1, last < v) ∧
    (∀ v, v ∈ (carcdLoop last counts rest).1 ↔ v ∈ rest ∧ v ≠ last) := by
  induction rest with
  | nil =>
    intro last counts _
    refine ⟨List.sorted_nil, ?_, ?_⟩
    · intro v hv; exact absurd hv (List.not_mem_nil v)
    · intro v; simp [carcdLoop]
  | cons x r ih =>
    intro last counts hs
    rw [List.sorted_cons] at hs
    obtain ⟨hlast, hxr⟩ := hs
    have hlx : last ≤ x := hlast x (List.mem_cons_self x r)
    obtain ⟨ihs, ihgt, ihmem⟩ := ih x (fun v => if v = x then counts v + 1 else counts v) hxr
    have hx_all : ∀ v ∈ r, x ≤ v := (List.sorted_cons.mp hxr).1
    by_cases hne : last = x
    · subst hne
      simp only [carcdLoop, if_neg (by simp : ¬ (last ≠ last))]
      refine ⟨ihs, ihgt, ?_⟩
      intro v
      rw [ihmem v]
      constructor
      · rintro ⟨hvr, hvx⟩
        exact ⟨List.mem_cons_of_mem _ hvr, hvx⟩
      · rintro ⟨hv, hvx⟩
        rcases List.mem_cons.mp hv with rfl | hvr
        · exact absurd rfl hvx
        · exact ⟨hvr, hvx⟩
    · have hlt : last < x := lt_of_le_of_ne hlx hne
      simp only [carcdLoop, if_pos hne]
      refine ⟨?_, ?_, ?_⟩
      · rw [List.sorted_cons]
        exact ⟨ihgt, ihs⟩
      · intro v hv
        rcases List.mem_cons.mp hv with rfl | hv2
        · exact hlt
        · exact hlt.trans (ihgt v hv2)
      · intro v
        rw [List.mem_cons, ihmem v]
        constructor
        · rintro (rfl | ⟨hvr, _⟩)
          · exact ⟨List.mem_cons_self _ _, (ne_of_gt hlt)⟩
          · refine ⟨List.mem_cons_of_mem _ hvr, ?_⟩
            have := hx_all v hvr
            omega
        · rintro ⟨hv, hvlast⟩
          rcases List.mem_cons.mp hv with rfl | hvr
          · exact Or.inl rfl
          · by_cases hvx : v = x
            · exact Or.inl hvx
            · exact Or.inr ⟨hvr, hvx⟩

theorem carcdCore_sorted (x : ℤ) (rest : List ℤ)
    (hs : List.Sorted (· ≤ ·) (x :: rest)) :
    List.Sorted (· < ·) (countAndRemoveConsecutiveDuplicatesCore x rest).1 := by
  obtain ⟨h1, h2, _⟩ := carcdLoop_result rest x (fun v => if v = x then 1 else 0) hs
  unfold countAndRemoveConsecutiveDuplicatesCore
  rw [List.sorted_cons]
  exact ⟨h2, h1⟩

theorem carcdCore_mem (x : ℤ) (rest : List ℤ)
    (hs : List.Sorted (· ≤ ·) (x :: rest)) (v : ℤ) :
    v ∈ (countAndRemoveConsecutiveDuplicatesCore x rest).1 ↔ v ∈ x :: rest := by
  obtain ⟨_, _, hmem⟩ := carcdLoop_result rest x (fun v => if v = x then 1 else 0) hs
  unfold countAndRemoveConsecutiveDuplicatesCore
  rw [List.mem_cons, hmem v, List.mem_cons]
  constructor
  · rintro (rfl | ⟨hv, _⟩)
    · exact Or.inl rfl
    · exact Or.inr hv
  · rintro (rfl | hv)
    · exact Or.inl rfl
    · by_cases hvx : v = x
      · exact Or.inl hvx
      · exact Or.inr ⟨hv, hvx⟩

theorem modeFold_spec (f : ℤ → ℤ) (l : List ℤ) : ∀ (m c : ℤ),
    f m = c → (∀ v ∈ l, m ≤ v) → List.Sorted (· ≤ ·) l →
    f (l.foldl (fun q datum => if f datum > q.2 then (datum, f datum) else q) (m, c)).1 =
      (l.foldl (fun q datum => if f datum > q.2 then (datum, f datum) else q) (m, c)).2 ∧
    c ≤ (l.foldl (fun q datum => if f datum > q.2 then (datum, f datum) else q) (m, c)).2 ∧
    (∀ v ∈ l, f v ≤
      (l.foldl (fun q datum => if f datum > q.2 then (datum, f datum) else q) (m, c)).2) ∧
    ((l.foldl (fun q datum => if f datum > q.2 then (datum, f datum) else q) (m, c)).1 = m ∨
      (l.foldl (fun q datum => if f datum > q.2 then (datum, f datum) else q) (m, c)).1 ∈ l) ∧
    ((l.foldl (fun q datum => if f datum > q.2 then (datum, f datum) else q) (m, c)).2 = c →
      (l.foldl (fun q datum => if f datum > q.2 then (datum, f datum) else q) (m, c)).1 = m) ∧
    (∀ v ∈ l, f v =
      (l.foldl (fun q datum => if f datum > q.2 then (datum, f datum) else q) (m, c)).2 →
      (l.foldl (fun q datum => if f datum > q.2 then (datum, f datum) else q) (m, c)).1 ≤ v) := by
  induction l with
  | nil =>
    intro m c hf _ _
    refine ⟨hf, le_refl c, ?_, Or.inl rfl, fun _ => rfl, ?_⟩
    · intro v hv; exact absurd hv (List.not_mem_nil v)
    · intro v hv; exact absurd hv (List.not_mem_nil v)
  | cons x r ih =>
    intro m c hf hml hs
    rw [List.sorted_cons] at hs
    obtain ⟨hxr, hsr⟩ := hs
    have hmx : m ≤ x := hml x (List.mem_cons_self x r)
    simp only [List.foldl_cons]
    by_cases hgt : f x > c
    · rw [if_pos hgt]
      obtain ⟨i1, i2, i3, i4, i5, i6⟩ := ih x (f x) rfl hxr hsr
      refine ⟨i1, by linarith, ?_, ?_, ?_, ?_⟩
      · intro v hv
        rcases List.mem_cons.mp hv with rfl | hvr
        · exact i2
        · exact i3 v hvr
      · rcases i4 with h | h
        · exact Or.inr (by rw [h]; exact List.mem_cons_self _ _)
        · exact Or.inr (List.mem_cons_of_mem _ h)
      · intro hc
        exfalso
        have := i2
        omega
      · intro v hv hfv
        rcases List.mem_cons.mp hv with rfl | hvr
        · rw [i5 hfv.symm]
        · exact i6 v hvr hfv
    · rw [if_neg hgt]
      obtain ⟨i1, i2, i3, i4, i5, i6⟩ := ih m c hf
        (fun v hv => hml v (List.mem_cons_of_mem _ hv)) hsr
      have hfx : f x ≤ c := not_lt.mp hgt
      refine ⟨i1, i2, ?_, ?_, i5, ?_⟩
      · intro v hv
        rcases List.mem_cons.mp hv with rfl | hvr
        · exact hfx.trans i2
        · exact i3 v hvr
      · rcases i4 with h | h
        · exact Or.inl h
        · exact Or.inr (List.mem_cons_of_mem _ h)
      · intro v hv hfv
        rcases List.mem_cons.mp hv with rfl | hvr
        · have hceq : (r.foldl (fun q datum =>
              if f datum > q.2 then (datum, f datum) else q) (m, c)).2 = c := by
            have := hfv ▸ hfx
            have := i2
            omega
          rw [i5 hceq]
          exact hmx
        · exact i6 v hvr hfv

theorem sum_counts_of_nodup (l d : List ℤ) (hd : d.Nodup)
    (hmem : ∀ v, v ∈ d ↔ v ∈ l) :
    (d.map (fun v => (l.count v : ℤ))).sum = (l.length : ℤ) := by
  have h1 : d.toFinset = l.toFinset := by
    ext a
    simp only [List.mem_toFinset]
    exact hmem a
  have h2 : d.toFinset.sum (fun v => l.count v) = (d.map (fun v => l.count v)).sum :=
    List.sum_toFinset _ hd
  have h4 : (d.map (fun v => l.count v)).sum = l.length := by
    rw [← h2, h1]
    exact List.sum_toFinset_count_eq_length l
  calc (d.map (fun v => (l.count v : ℤ))).sum
      = ((d.map (fun v => l.count v)).map (fun k : ℕ => (k : ℤ))).sum := by
        rw [List.map_map]
        rfl
    _ = (((d.map (fun v => l.count v)).sum : ℕ) : ℤ) := (Nat.cast_list_sum _).symm
    _ = (l.length : ℤ) := by rw [h4]

theorem createCountMapCore_spec (x : ℤ) (rest : List ℤ)
    (hs : List.Sorted (· ≤ ·) (x :: rest)) :
    List.Sorted (· < ·) (createCountMapCore x rest).1 ∧
    (∀ v, v ∈ (createCountMapCore x rest).1 ↔ v ∈ x :: rest) ∧
    (createCountMapCore x rest).2.1.length = (createCountMapCore x rest).1.length ∧
    (createCountMapCore x rest).2.1.sum = ((x :: rest).length : ℤ) ∧
    (∀ i, i < (createCountMapCore x rest).1.length →
      (createCountMapCore x rest).2.1.getD i 0 =
        ((x :: rest).count ((createCountMapCore x rest).1.getD i 0) : ℤ)) ∧
    (createCountMapCore x rest).2.2.1 ∈ (createCountMapCore x rest).1 ∧
    ((x :: rest).count (createCountMapCore x rest).2.2.1 : ℤ) =
      (createCountMapCore x rest).2.2.2 ∧
    (∀ v ∈ (createCountMapCore x rest).1,
      ((x :: rest).count v : ℤ) ≤ (createCountMapCore x rest).2.2.2) ∧
    (∀ v ∈ (createCountMapCore x rest).1,
      ((x :: rest).count v : ℤ) = (createCountMapCore x rest).2.2.2 →
        (createCountMapCore x rest).2.2.1 ≤ v) := by
  have hsort := carcdCore_sorted x rest hs
  have hmem := carcdCore_mem x rest hs
  have hcount := carcdCore_counts x rest
  have hnodup : (countAndRemoveConsecutiveDuplicatesCore x rest).1.Nodup :=
    hsort.imp (fun h => ne_of_lt h)
  have hxmem : x ∈ (countAndRemoveConsecutiveDuplicatesCore x rest).1 := by
    unfold countAndRemoveConsecutiveDuplicatesCore
    exact List.mem_cons_self _ _
  have hge : ∀ v ∈ (countAndRemoveConsecutiveDuplicatesCore x rest).1, x ≤ v := by
    intro v hv
    rcases List.mem_cons.mp ((hmem v).mp hv) with rfl | hvr
    · exact le_refl v
    · exact (List.sorted_cons.mp hs).1 v hvr
  have hsle : List.Sorted (· ≤ ·) (countAndRemoveConsecutiveDuplicatesCore x rest).1 :=
    hsort.imp (fun h => le_of_lt h)
  obtain ⟨m1, m2, m3, m4, m5, m6⟩ :=
    modeFold_spec (countAndRemoveConsecutiveDuplicatesCore x rest).2
      (countAndRemoveConsecutiveDuplicatesCore x rest).1 x
      ((countAndRemoveConsecutiveDuplicatesCore x rest).2 x) rfl hge hsle
  have hmapeq : (countAndRemoveConsecutiveDuplicatesCore x rest).1.map
      (countAndRemoveConsecutiveDuplicatesCore x rest).2 =
      (countAndRemoveConsecutiveDuplicatesCore x rest).1.map
        (fun v => (((x :: rest).count v : ℕ) : ℤ)) := by
    apply List.map_congr_left
    intro a _
    exact hcount a
  refine ⟨hsort, hmem, ?_, ?_, ?_, ?_, ?_, ?_, ?_⟩
  · simp [createCountMapCore]
  · simp only [createCountMapCore]
    rw [hmapeq]
    exact sum_counts_of_nodup (x :: rest) _ hnodup hmem
  · intro i hi
    simp only [createCountMapCore] at hi ⊢
    have hi2 : i < ((countAndRemoveConsecutiveDuplicatesCore x rest).1.map
        (countAndRemoveConsecutiveDuplicatesCore x rest).2).length := by
      rw [List.length_map]; exact hi
    rw [List.getD_eq_getElem _ 0 hi2, List.getElem_map,
      List.getD_eq_getElem _ 0 hi]
    exact hcount _
  · simp only [createCountMapCore]
    rcases m4 with h | h
    · rw [h]; exact hxmem
    · exact h
  · simp only [createCountMapCore]
    rw [← hcount _]
    exact m1
  · simp only [createCountMapCore]
    intro v hv
    rw [← hcount v]
    exact m3 v hv
  · simp only [createCountMapCore]
    intro v hv hcv
    rw [← hcount v] at hcv
    exact m6 v hv hcv

theorem diffList_eq_range_map (ts : List ℤ) :
    diffList ts = (List.range (ts.length - 1)).map
      (fun i => ts.getD (i + 1) 0 - ts.getD i 0) := by
  apply List.ext_getElem
  · rw [diffList_length]
    simp
  · intro i h1 h2
    have hi : i < ts.length - 1 := by
      have := diffList_length ts
      omega
    rw [List.getElem_map, List.getElem_range]
    unfold diffList
    rw [List.getElem_zipWith, List.getElem_tail,
      List.getD_eq_getElem ts 0 (by omega), List.getD_eq_getElem ts 0 (by omega)]

/-! ## Claim theorems -/

/-- C5: for every input whose tsList is absent, the emitted envelope contains
exactly one sub-update, the uconnproxy update, whose query sets strobeFQDN
to true and whose selector is the pair identifier; the pair-record and
host-max sub-updates stay at their zero values. -/
theorem strobe_only_uconnproxy (a : Analyzer) (entry : Input)
    (eo lo uo : Except Unit ℕ) (h : entry.tsList = none) :
    startEntry a entry eo lo uo =
      some { uconnproxy := { query := MQuery.setStrobe
                             selector := Selector.pair entry.hosts }
             beacon := { query := MQuery.empty, selector := Selector.empty }
             hostBeacon := { query := MQuery.empty, selector := Selector.empty } } := by
  unfold startEntry
  rw [h]

/-- Witness for C5 at a concrete strobe input. -/
theorem strobe_only_uconnproxy_witness :
    startEntry ⟨0, 36000, 0⟩
      ⟨⟨"10.0.0.1", "uuid", "net", "evil.com"⟩, "proxy", 50000, none⟩
      (Except.ok 0) (Except.ok 0) (Except.ok 0) =
      some { uconnproxy := { query := MQuery.setStrobe
                             selector := Selector.pair
                               ⟨"10.0.0.1", "uuid", "net", "evil.com"⟩ }
             beacon := { query := MQuery.empty, selector := Selector.empty }
             hostBeacon := { query := MQuery.empty, selector := Selector.empty } } :=
  strobe_only_uconnproxy ⟨0, 36000, 0⟩
    ⟨⟨"10.0.0.1", "uuid", "net", "evil.com"⟩, "proxy", 50000, none⟩
    (Except.ok 0) (Except.ok 0) (Except.ok 0) rfl

/-- Helper: whenever the first store query that the reconciler actually
consults returns an error, the zero updateInfo is returned. -/
theorem hostBeaconQuery_error_noop (a : Analyzer) (score : ℚ) (src : UniqueIP)
    (fqdn : String) (eo lo uo : Except Unit ℕ)
    (herr : eo = Except.error () ∨ (eo = Except.ok 0 ∧ lo = Except.error ()) ∨
      (eo = Except.ok 0 ∧ lo = Except.ok 0 ∧ uo = Except.error ())) :
    hostBeaconQuery a score src fqdn eo lo uo =
      { query := MQuery.empty, selector := Selector.empty } := by
  rcases herr with rfl | ⟨rfl, rfl⟩ | ⟨rfl, rfl, rfl⟩ <;>
    simp [hostBeaconQuery]

/-- C4: if any consulted reconciler store query returns an error, the
host-max sub-update is the zero updateInfo (no replace, no insert), while
the pair-record update of the same input is still emitted in the envelope. -/
theorem reconciler_error_noop (a : Analyzer) (entry : Input) (ts : List ℤ)
    (eo lo uo : Except Unit ℕ)
    (hts : entry.tsList = some ts) (h2 : 2 ≤ ts.length)
    (herr : eo = Except.error () ∨ (eo = Except.ok 0 ∧ lo = Except.error ()) ∨
      (eo = Except.ok 0 ∧ lo = Except.ok 0 ∧ uo = Except.error ())) :
    ∃ u, startEntry a entry eo lo uo = some u ∧
      u.hostBeacon = { query := MQuery.empty, selector := Selector.empty } ∧
      ∃ r, u.beacon.query = MQuery.pairSet r := by
  simp only [startEntry, hts, analyzeTS_eq_total ts h2]
  exact ⟨_, rfl, hostBeaconQuery_error_noop _ _ _ _ _ _ _ herr, _, rfl⟩

/-- Witness for C4 at a concrete input with a failing exact-match query. -/
theorem reconciler_error_noop_witness :
    ∃ u, startEntry ⟨0, 36000, 0⟩
        ⟨⟨"10.0.0.1", "uuid", "net", "evil.com"⟩, "proxy", 6, some [0, 60, 120, 180]⟩
        (Except.error ()) (Except.ok 0) (Except.ok 0) = some u ∧
      u.hostBeacon = { query := MQuery.empty, selector := Selector.empty } ∧
      ∃ r, u.beacon.query = MQuery.pairSet r :=
  reconciler_error_noop ⟨0, 36000, 0⟩
    ⟨⟨"10.0.0.1", "uuid", "net", "evil.com"⟩, "proxy", 6, some [0, 60, 120, 180]⟩
    [0, 60, 120, 180] (Except.error ()) (Except.ok 0) (Except.ok 0) rfl
    (by decide) (Or.inl rfl)

/-- C2: against a fixed store state, the reconciler decides by the three
counted queries in order: an fqdn exact match (any chunk) forces an
unconditional replace; otherwise a lower-scoring element of this chunk with
a different fqdn forces a replace of that element; otherwise it inserts a
new dat element exactly when no element of this chunk scores at least as
high, and is a noop otherwise. -/
theorem hostBeaconQuery_decision (a : Analyzer) (score : ℚ) (src : UniqueIP)
    (fqdn : String) (dat : List DatElem) :
    ((∃ e ∈ dat, e.mbproxy = fqdn) →
      hostBeaconQueryStore a score src fqdn dat =
        { query := MQuery.setDatMax score fqdn a.chunk
          selector := Selector.srcExactMatch src fqdn }) ∧
    ((¬ ∃ e ∈ dat, e.mbproxy = fqdn) →
      (∃ e ∈ dat, e.cid = a.chunk ∧ e.maxBeaconProxyScore ≤ score ∧ e.mbproxy ≠ fqdn) →
      hostBeaconQueryStore a score src fqdn dat =
        { query := MQuery.setDatMax score fqdn a.chunk
          selector := Selector.srcLowerMatch src a.chunk score }) ∧
    ((¬ ∃ e ∈ dat, e.mbproxy = fqdn) →
      (¬ ∃ e ∈ dat, e.cid = a.chunk ∧ e.maxBeaconProxyScore ≤ score ∧ e.mbproxy ≠ fqdn) →
      ((¬ ∃ e ∈ dat, e.cid = a.chunk ∧ score ≤ e.maxBeaconProxyScore) →
        hostBeaconQueryStore a score src fqdn dat =
          { query := MQuery.pushDat score fqdn a.chunk
            selector := Selector.src src }) ∧
      ((∃ e ∈ dat, e.cid = a.chunk ∧ score ≤ e.maxBeaconProxyScore) →
        hostBeaconQueryStore a score src fqdn dat =
          { query := MQuery.empty, selector := Selector.empty })) := by
  by_cases hE : ∃ e ∈ dat, e.mbproxy = fqdn
  · refine ⟨fun _ => ?_, fun hnE => absurd hE hnE, fun hnE => absurd hE hnE⟩
    have hE1 : countExactMatches dat fqdn = 1 := by
      simp [countExactMatches, hE]
    simp [hostBeaconQueryStore, hostBeaconQuery, hE1]
  · have hE0 : countExactMatches dat fqdn = 0 := by
      simp only [countExactMatches, if_neg hE]
    refine ⟨fun h => absurd h hE, ?_, ?_⟩
    · intro _ hL
      have hLex : ∃ e ∈ dat, e.cid = a.chunk ∧ e.maxBeaconProxyScore ≤ score := by
        obtain ⟨e, he, h1, hsc, _⟩ := hL
        exact ⟨e, he, h1, hsc⟩
      have hL1 : countLowerMatches dat a.chunk score = 1 := by
        simp only [countLowerMatches, if_pos hLex]
      simp [hostBeaconQueryStore, hostBeaconQuery, hE0, hL1]
    · intro _ hnL
      have hLex : ¬ ∃ e ∈ dat, e.cid = a.chunk ∧ e.maxBeaconProxyScore ≤ score := by
        rintro ⟨e, he, h1, hsc⟩
        have hne : e.mbproxy ≠ fqdn := fun hcontra => hE ⟨e, he, hcontra⟩
        exact hnL ⟨e, he, h1, hsc, hne⟩
      have hL0 : countLowerMatches dat a.chunk score = 0 := by
        simp only [countLowerMatches, if_neg hLex]
      constructor
      · intro hnU
        have hU0 : countUpperMatches dat a.chunk score = 0 := by
          simp only [countUpperMatches, if_neg hnU]
        simp [hostBeaconQueryStore, hostBeaconQuery, hE0, hL0, hU0]
      · intro hU
        have hU1 : countUpperMatches dat a.chunk score = 1 := by
          simp only [countUpperMatches, if_pos hU]
        simp [hostBeaconQueryStore, hostBeaconQuery, hE0, hL0, hU1]

/-- Witness for C2: on an empty host document the reconciler inserts a new
dat element. -/
theorem hostBeaconQuery_decision_witness :
    hostBeaconQueryStore ⟨0, 36000, 0⟩ (1/2) ⟨"10.0.0.1", "uuid", "net"⟩
      "evil.com" [] =
      { query := MQuery.pushDat (1/2) "evil.com" 0
        selector := Selector.src ⟨"10.0.0.1", "uuid", "net"⟩ } :=
  ((hostBeaconQuery_decision ⟨0, 36000, 0⟩ (1/2) ⟨"10.0.0.1", "uuid", "net"⟩
    "evil.com" []).2.2 (by simp) (by simp)).1 (by simp)

/-- C10: the kernel makes only in-bounds accesses on a present tsList of
length at least 2 and is total there; presented with a singleton list it
trips the out-of-bounds quartile lookup on the empty diff slice, and with an
empty list the negative make length, so it returns none in both cases. -/
theorem kernel_bounds :
    (∀ ts : List ℤ, 2 ≤ ts.length → (analyzeTS ts).isSome = true) ∧
    (∀ x : ℤ, analyzeTS [x] = none) ∧
    analyzeTS ([] : List ℤ) = none := by
  refine ⟨?_, ?_, ?_⟩
  · intro ts h2
    rw [analyzeTS_eq_total ts h2]
    rfl
  · intro x
    have hnil : sortInt64 (diffList [x]) = [] := rfl
    simp only [analyzeTS]
    rw [if_neg (by simp)]
    rw [hnil, getI_nil]
    simp
  · simp only [analyzeTS]
    rw [if_pos (by simp)]

/-- Witness for C10 at concrete inputs of lengths 2, 1 and 0. -/
theorem kernel_bounds_witness :
    (analyzeTS [0, 60]).isSome = true ∧ analyzeTS [(5 : ℤ)] = none ∧
      analyzeTS ([] : List ℤ) = none :=
  ⟨kernel_bounds.1 [0, 60] (by decide), kernel_bounds.2.1 5, kernel_bounds.2.2⟩

/-- The deltas as the spec describes them (section 4.A step 1):
`diff[i] = tsList[i+1] − tsList[i]` for `i` in `0..n-2`. -/
def specDeltas (ts : List ℤ) : List ℤ :=
  (List.range (ts.length - 1)).map (fun i => ts.getD (i + 1) 0 - ts.getD i 0)

theorem diffList_eq_specDeltas (ts : List ℤ) : diffList ts = specDeltas ts :=
  diffList_eq_range_map ts

/-- C7: Bowley skew equals `(Q1 + Q3 − 2·Q2)/(Q3 − Q1)` exactly under the
three degeneracy guards, is zero otherwise, and always lies in `[-1, 1]`. -/
theorem bowley_skew_spec (ts : List ℤ) (_hsort : List.Sorted (· < ·) ts)
    (h2 : 2 ≤ ts.length) :
    ∃ st, analyzeTS ts = some st ∧
      st.tsSkew =
        (if st.tsHigh ≠ st.tsLow ∧ st.tsMid ≠ st.tsLow ∧ st.tsMid ≠ st.tsHigh then
          ((st.tsLow + st.tsHigh - 2 * st.tsMid : ℤ) : ℚ) /
            ((st.tsHigh - st.tsLow : ℤ) : ℚ)
        else 0) ∧
      -1 ≤ st.tsSkew ∧ st.tsSkew ≤ 1 := by
  refine ⟨analyzeTSTotal ts, analyzeTS_eq_total ts h2, analyzeTSTotal_skew_eq ts, ?_, ?_⟩
  · exact (abs_le.mp (analyzeTSTotal_skew_bound ts h2)).1
  · exact (abs_le.mp (analyzeTSTotal_skew_bound ts h2)).2

/-- Witness for C7 at a concrete ascending input. -/
theorem bowley_skew_spec_witness :
    ∃ st, analyzeTS [0, 60, 120] = some st ∧
      st.tsSkew =
        (if st.tsHigh ≠ st.tsLow ∧ st.tsMid ≠ st.tsLow ∧ st.tsMid ≠ st.tsHigh then
          ((st.tsLow + st.tsHigh - 2 * st.tsMid : ℤ) : ℚ) /
            ((st.tsHigh - st.tsLow : ℤ) : ℚ)
        else 0) ∧
      -1 ≤ st.tsSkew ∧ st.tsSkew ≤ 1 :=
  bowley_skew_spec [0, 60, 120] (by decide) (by decide)

/-- C6: the kernel sorts the deltas ascending, reads the three quartiles at
the half-away-from-zero rounded indices `round(p·(m−1))` of the sorted diff,
reads the dispersion at index `round(0.5·(m−1))` of the ascending-sorted
absolute deviations from the median, and takes the range as
`diff[m−1] − diff[0]` of the sorted diff. -/
theorem kernel_structure_spec (ts : List ℤ) (_hsort : List.Sorted (· < ·) ts)
    (h2 : 2 ≤ ts.length) :
    ∃ st, analyzeTS ts = some st ∧
      st.sortedDiff.length = ts.length - 1 ∧
      List.Sorted (· ≤ ·) st.sortedDiff ∧
      List.Perm st.sortedDiff (specDeltas ts) ∧
      st.tsLow = st.sortedDiff.getD
        (Round ((1/4 : ℚ) * (((st.sortedDiff.length : ℤ) - 1 : ℤ) : ℚ))).toNat 0 ∧
      st.tsMid = st.sortedDiff.getD
        (Round ((1/2 : ℚ) * (((st.sortedDiff.length : ℤ) - 1 : ℤ) : ℚ))).toNat 0 ∧
      st.tsHigh = st.sortedDiff.getD
        (Round ((3/4 : ℚ) * (((st.sortedDiff.length : ℤ) - 1 : ℤ) : ℚ))).toNat 0 ∧
      List.Sorted (· ≤ ·) (sortInt64 (st.sortedDiff.map (fun d => |d - st.tsMid|))) ∧
      List.Perm (sortInt64 (st.sortedDiff.map (fun d => |d - st.tsMid|)))
        (st.sortedDiff.map (fun d => |d - st.tsMid|)) ∧
      st.tsMadm = (sortInt64 (st.sortedDiff.map (fun d => |d - st.tsMid|))).getD
        (Round ((1/2 : ℚ) * (((st.sortedDiff.length : ℤ) - 1 : ℤ) : ℚ))).toNat 0 ∧
      st.tsIntervalRange = st.sortedDiff.getD (st.sortedDiff.length - 1) 0 -
        st.sortedDiff.getD 0 0 := by
  have hcast : (((ts.length - 1 : ℕ) : ℤ) - 1 : ℤ) = ((ts.length : ℤ) - 2 : ℤ) := by
    omega
  have hr : ((ts.length : ℤ) - 1 - 1).toNat = ts.length - 1 - 1 := by omega
  refine ⟨analyzeTSTotal ts, analyzeTS_eq_total ts h2, ?_, ?_, ?_, ?_, ?_, ?_,
    ?_, ?_, ?_, ?_⟩
  · simp only [analyzeTSTotal]
    rw [sortInt64_length, diffList_length]
  · simp only [analyzeTSTotal]
    exact sortInt64_sorted _
  · simp only [analyzeTSTotal]
    rw [← diffList_eq_specDeltas]
    exact sortInt64_perm _
  · simp only [analyzeTSTotal]
    rw [sortInt64_length, diffList_length, hcast]
  · simp only [analyzeTSTotal]
    rw [sortInt64_length, diffList_length, hcast]
  · simp only [analyzeTSTotal]
    rw [sortInt64_length, diffList_length, hcast]
  · simp only [analyzeTSTotal]
    exact sortInt64_sorted _
  · simp only [analyzeTSTotal]
    exact sortInt64_perm _
  · simp only [analyzeTSTotal, Abs_eq_abs]
    rw [sortInt64_length, diffList_length, hcast]
  · simp only [analyzeTSTotal]
    rw [sortInt64_length, diffList_length, hr]
    norm_num

/-- Witness for C6 at a concrete ascending input. -/
theorem kernel_structure_spec_witness :
    ∃ st, analyzeTS [0, 60, 120] = some st ∧
      st.sortedDiff.length = ([0, 60, 120] : List ℤ).length - 1 ∧
      List.Sorted (· ≤ ·) st.sortedDiff ∧
      List.Perm st.sortedDiff (specDeltas [0, 60, 120]) ∧
      st.tsLow = st.sortedDiff.getD
        (Round ((1/4 : ℚ) * (((st.sortedDiff.length : ℤ) - 1 : ℤ) : ℚ))).toNat 0 ∧
      st.tsMid = st.sortedDiff.getD
        (Round ((1/2 : ℚ) * (((st.sortedDiff.length : ℤ) - 1 : ℤ) : ℚ))).toNat 0 ∧
      st.tsHigh = st.sortedDiff.getD
        (Round ((3/4 : ℚ) * (((st.sortedDiff.length : ℤ) - 1 : ℤ) : ℚ))).toNat 0 ∧
      List.Sorted (· ≤ ·) (sortInt64 (st.sortedDiff.map (fun d => |d - st.tsMid|))) ∧
      List.Perm (sortInt64 (st.sortedDiff.map (fun d => |d - st.tsMid|)))
        (st.sortedDiff.map (fun d => |d - st.tsMid|)) ∧
      st.tsMadm = (sortInt64 (st.sortedDiff.map (fun d => |d - st.tsMid|))).getD
        (Round ((1/2 : ℚ) * (((st.sortedDiff.length : ℤ) - 1 : ℤ) : ℚ))).toNat 0 ∧
      st.tsIntervalRange = st.sortedDiff.getD (st.sortedDiff.length - 1) 0 -
        st.sortedDiff.getD 0 0 :=
  kernel_structure_spec [0, 60, 120] (by decide) (by decide)

/-- C8: the intervals are exactly the distinct delta values in strictly
ascending order, the parallel counts give the frequency of each interval
among the deltas and sum to `n − 1`, and the mode is the smallest interval
achieving the maximal count, which equals modeCount. -/
theorem histogram_mode_spec (ts : List ℤ) (_hsort : List.Sorted (· < ·) ts)
    (h2 : 2 ≤ ts.length) :
    ∃ st, analyzeTS ts = some st ∧
      List.Sorted (· < ·) st.intervals ∧
      (∀ v, v ∈ st.intervals ↔ v ∈ specDeltas ts) ∧
      st.intervalCounts.length = st.intervals.length ∧
      st.intervalCounts.sum = (ts.length : ℤ) - 1 ∧
      (∀ i, i < st.intervals.length → st.intervalCounts.getD i 0 =
        ((specDeltas ts).count (st.intervals.getD i 0) : ℤ)) ∧
      st.tsMode ∈ st.intervals ∧
      ((specDeltas ts).count st.tsMode : ℤ) = st.tsModeCount ∧
      (∀ v ∈ st.intervals, ((specDeltas ts).count v : ℤ) ≤ st.tsModeCount) ∧
      (∀ v ∈ st.intervals, ((specDeltas ts).count v : ℤ) = st.tsModeCount →
        st.tsMode ≤ v) := by
  rcases hL : sortInt64 (diffList ts) with _ | ⟨x, r⟩
  · exfalso
    have := sortInt64_length (diffList ts)
    rw [hL, diffList_length] at this
    simp at this
    omega
  · have hs : List.Sorted (· ≤ ·) (x :: r) := by
      rw [← hL]
      exact sortInt64_sorted _
    have hperm : List.Perm (x :: r) (specDeltas ts) := by
      rw [← hL, ← diffList_eq_specDeltas]
      exact sortInt64_perm _
    obtain ⟨k1, k2, k3, k4, k5, k6, k7, k8, k9⟩ := createCountMapCore_spec x r hs
    have hcm : createCountMapCore ((sortInt64 (diffList ts)).headD 0)
        ((sortInt64 (diffList ts)).tail) = createCountMapCore x r := by
      rw [hL]
      rfl
    have hxrlen : ((x :: r).length : ℤ) = (ts.length : ℤ) - 1 := by
      have h1 : (x :: r).length = ts.length - 1 := by
        rw [← hL, sortInt64_length, diffList_length]
      omega
    refine ⟨analyzeTSTotal ts, analyzeTS_eq_total ts h2, ?_, ?_, ?_, ?_, ?_, ?_,
      ?_, ?_, ?_⟩
    · simp only [analyzeTSTotal]
      rw [hcm]
      exact k1
    · simp only [analyzeTSTotal]
      rw [hcm]
      intro v
      rw [k2 v, ← hperm.mem_iff]
    · simp only [analyzeTSTotal]
      rw [hcm]
      exact k3
    · simp only [analyzeTSTotal]
      rw [hcm, k4, hxrlen]
    · simp only [analyzeTSTotal]
      rw [hcm]
      intro i hi
      rw [k5 i hi, hperm.count_eq]
    · simp only [analyzeTSTotal]
      rw [hcm]
      exact k6
    · simp only [analyzeTSTotal]
      rw [hcm, ← hperm.count_eq]
      exact k7
    · simp only [analyzeTSTotal]
      rw [hcm]
      intro v hv
      rw [← hperm.count_eq]
      exact k8 v hv
    · simp only [analyzeTSTotal]
      rw [hcm]
      intro v hv hc
      rw [← hperm.count_eq] at hc
      exact k9 v hv hc

/-- Witness for C8 at a concrete ascending input. -/
theorem histogram_mode_spec_witness :
    ∃ st, analyzeTS [0, 60, 120] = some st ∧
      List.Sorted (· < ·) st.intervals ∧
      (∀ v, v ∈ st.intervals ↔ v ∈ specDeltas [0, 60, 120]) ∧
      st.intervalCounts.length = st.intervals.length ∧
      st.intervalCounts.sum = (([0, 60, 120] : List ℤ).length : ℤ) - 1 ∧
      (∀ i, i < st.intervals.length → st.intervalCounts.getD i 0 =
        ((specDeltas [0, 60, 120]).count (st.intervals.getD i 0) : ℤ)) ∧
      st.tsMode ∈ st.intervals ∧
      ((specDeltas [0, 60, 120]).count st.tsMode : ℤ) = st.tsModeCount ∧
      (∀ v ∈ st.intervals, ((specDeltas [0, 60, 120]).count v : ℤ) ≤ st.tsModeCount) ∧
      (∀ v ∈ st.intervals, ((specDeltas [0, 60, 120]).count v : ℤ) = st.tsModeCount →
        st.tsMode ≤ v) :=
  histogram_mode_spec [0, 60, 120] (by decide) (by decide)

theorem if_lt_zero_eq_max (x : ℚ) : (if x < 0 then 0 else x) = max 0 x := by
  by_cases h : x < 0
  · rw [if_pos h, max_eq_left (le_of_lt h)]
  · rw [if_neg h, max_eq_right (not_lt.mp h)]

theorem score_components_bounds (s1 s2 s3 : ℚ)
    (h1a : 0 ≤ s1) (h1b : s1 ≤ 1) (h2a : 0 ≤ s2) (h2b : s2 ≤ 1)
    (h3a : 0 ≤ s3) (h3b : s3 ≤ 1) :
    0 ≤ (⌈((s1 + s2 + s3) / 3) * 1000⌉ : ℚ) / 1000 ∧
      (⌈((s1 + s2 + s3) / 3) * 1000⌉ : ℚ) / 1000 ≤ 1 := by
  have hsum0 : 0 ≤ ((s1 + s2 + s3) / 3) * 1000 := by linarith
  have hsum1 : ((s1 + s2 + s3) / 3) * 1000 ≤ 1000 := by linarith
  constructor
  · apply div_nonneg _ (by norm_num : (0 : ℚ) ≤ 1000)
    exact_mod_cast Int.ceil_nonneg hsum0
  · rw [div_le_one (by norm_num : (0 : ℚ) < 1000)]
    have h := Int.ceil_le.mpr (by exact_mod_cast hsum1 : (s1 + s2 + s3) / 3 * 1000 ≤ ((1000 : ℤ) : ℚ))
    exact_mod_cast h

/-- C1: for every non-strobe input meeting the section-3 invariants and a
window with `tsMin < tsMax`, the emitted score lies in `[0, 1]`, is an
integer multiple of `0.001`, and equals
`ceil(((skewScore + madScore + connsScore)/3)·1000)/1000`. -/
theorem pairScore_bounds (a : Analyzer) (entry : Input) (ts : List ℤ)
    (eo lo uo : Except Unit ℕ)
    (hts : entry.tsList = some ts) (_hsort : List.Sorted (· < ·) ts)
    (hlen : 4 ≤ ts.length) (hconn : 1 ≤ entry.connectionCount)
    (hwin : a.tsMin < a.tsMax) :
    ∃ u r, startEntry a entry eo lo uo = some u ∧
      u.beacon.query = MQuery.pairSet r ∧
      0 ≤ r.score ∧ r.score ≤ 1 ∧ (∃ n : ℤ, r.score = (n : ℚ) / 1000) ∧
      r.score = (⌈(((1 - |r.ts_skew|) + max 0 (1 - (r.ts_dispersion : ℚ) / 30) +
        r.ts_conns_score) / 3) * 1000⌉ : ℚ) / 1000 := by
  have h2 : 2 ≤ ts.length := by omega
  have hskew := analyzeTSTotal_skew_bound ts h2
  have hmadm := analyzeTSTotal_madm_nonneg ts h2
  have hmadmq : (0 : ℚ) ≤ ((analyzeTSTotal ts).tsMadm : ℚ) := by exact_mod_cast hmadm
  have h1a : 0 ≤ 1 - |(analyzeTSTotal ts).tsSkew| := by linarith
  have h1b : 1 - |(analyzeTSTotal ts).tsSkew| ≤ 1 := by
    have := abs_nonneg (analyzeTSTotal ts).tsSkew
    linarith
  have h2a : 0 ≤ (if 1 - ((analyzeTSTotal ts).tsMadm : ℚ) / 30 < 0 then 0
      else 1 - ((analyzeTSTotal ts).tsMadm : ℚ) / 30) := by
    by_cases h : 1 - ((analyzeTSTotal ts).tsMadm : ℚ) / 30 < 0
    · rw [if_pos h]
    · rw [if_neg h]
      exact not_lt.mp h
  have h2b : (if 1 - ((analyzeTSTotal ts).tsMadm : ℚ) / 30 < 0 then 0
      else 1 - ((analyzeTSTotal ts).tsMadm : ℚ) / 30) ≤ 1 := by
    by_cases h : 1 - ((analyzeTSTotal ts).tsMadm : ℚ) / 30 < 0
    · rw [if_pos h]
      norm_num
    · rw [if_neg h]
      have hd : 0 ≤ ((analyzeTSTotal ts).tsMadm : ℚ) / 30 := by positivity
      linarith
  have hdiv : (0 : ℚ) < ((a.tsMax : ℚ) - (a.tsMin : ℚ)) / 10 := by
    have : (a.tsMin : ℚ) < (a.tsMax : ℚ) := by exact_mod_cast hwin
    linarith
  have hconnq : (0 : ℚ) < (entry.connectionCount : ℚ) := by
    have : (0 : ℤ) < entry.connectionCount := by omega
    exact_mod_cast this
  have h3a : 0 ≤ (if (entry.connectionCount : ℚ) /
      (((a.tsMax : ℚ) - (a.tsMin : ℚ)) / 10) > 1 then 1
      else (entry.connectionCount : ℚ) / (((a.tsMax : ℚ) - (a.tsMin : ℚ)) / 10)) := by
    by_cases h : (entry.connectionCount : ℚ) /
        (((a.tsMax : ℚ) - (a.tsMin : ℚ)) / 10) > 1
    · rw [if_pos h]
      norm_num
    · rw [if_neg h]
      positivity
  have h3b : (if (entry.connectionCount : ℚ) /
      (((a.tsMax : ℚ) - (a.tsMin : ℚ)) / 10) > 1 then 1
      else (entry.connectionCount : ℚ) / (((a.tsMax : ℚ) - (a.tsMin : ℚ)) / 10)) ≤ 1 := by
    by_cases h : (entry.connectionCount : ℚ) /
        (((a.tsMax : ℚ) - (a.tsMin : ℚ)) / 10) > 1
    · rw [if_pos h]
    · rw [if_neg h]
      exact not_lt.mp h
  obtain ⟨hs0, hs1⟩ := score_components_bounds _ _ _ h1a h1b h2a h2b h3a h3b
  simp only [startEntry, hts, analyzeTS_eq_total ts h2]
  refine ⟨_, _, rfl, rfl, hs0, hs1, ⟨_, rfl⟩, ?_⟩
  simp only [if_lt_zero_eq_max]

/-- Witness for C1 at a concrete valid input. -/
theorem pairScore_bounds_witness :
    ∃ u r, startEntry ⟨0, 36000, 0⟩
        ⟨⟨"10.0.0.1", "uuid", "net", "evil.com"⟩, "proxy", 6, some [0, 60, 120, 180]⟩
        (Except.ok 0) (Except.ok 0) (Except.ok 0) = some u ∧
      u.beacon.query = MQuery.pairSet r ∧
      0 ≤ r.score ∧ r.score ≤ 1 ∧ (∃ n : ℤ, r.score = (n : ℚ) / 1000) ∧
      r.score = (⌈(((1 - |r.ts_skew|) + max 0 (1 - (r.ts_dispersion : ℚ) / 30) +
        r.ts_conns_score) / 3) * 1000⌉ : ℚ) / 1000 :=
  pairScore_bounds ⟨0, 36000, 0⟩
    ⟨⟨"10.0.0.1", "uuid", "net", "evil.com"⟩, "proxy", 6, some [0, 60, 120, 180]⟩
    [0, 60, 120, 180] (Except.ok 0) (Except.ok 0) (Except.ok 0) rfl
    (by decide) (by decide) (by decide) (by decide)

/-! ## Scenario S1: tsList = [0, 60, 120, 180, 240, 300], connCount = 6,
window tsMin = 0, tsMax = 36000, chunk = 0 -/

theorem getD_const {l : List ℤ} {c : ℤ} (h : ∀ x ∈ l, x = c) {i : ℕ}
    (hi : i < l.length) : l.getD i 0 = c := by
  rw [List.getD_eq_getElem l 0 hi]
  exact h _ (List.getElem_mem hi)

theorem s1_stats : analyzeTSTotal [0, 60, 120, 180, 240, 300] =
    { sortedDiff := [60, 60, 60, 60, 60], tsLow := 60, tsMid := 60, tsHigh := 60
      tsSkew := 0, tsMadm := 0, tsIntervalRange := 0
      intervals := [60], intervalCounts := [5], tsMode := 60, tsModeCount := 5 } := by
  have h2form : (2 : ℕ) ≤ ([0, 60, 120, 180, 240, 300] : List ℤ).length := by decide
  have hidx : ∀ c : ℚ, 0 ≤ c → c ≤ 3/4 →
      (Round (c * (((([0, 60, 120, 180, 240, 300] : List ℤ).length : ℤ) - 2 : ℤ) : ℚ))).toNat
        < ([60, 60, 60, 60, 60] : List ℤ).length := by
    intro c h0 h1
    have hb := quartIdx_le h0 h1 h2form
    have hl : ([0, 60, 120, 180, 240, 300] : List ℤ).length = 6 := rfl
    have hl2 : ([60, 60, 60, 60, 60] : List ℤ).length = 5 := rfl
    omega
  have hL : sortInt64 (diffList [0, 60, 120, 180, 240, 300]) = [60, 60, 60, 60, 60] := by
    decide
  have hall : ∀ x ∈ ([60, 60, 60, 60, 60] : List ℤ), x = 60 := by decide
  have hall0 : ∀ x ∈ ([0, 0, 0, 0, 0] : List ℤ), x = 0 := by decide
  simp only [analyzeTSTotal]
  rw [hL]
  rw [getD_const hall (hidx (1/4) (by norm_num) (by norm_num)),
    getD_const hall (hidx (1/2) (by norm_num) (by norm_num)),
    getD_const hall (hidx (3/4) (by norm_num) (by norm_num))]
  rw [show sortInt64 (List.map (fun d => Abs (d - 60)) ([60, 60, 60, 60, 60] : List ℤ)) =
    [0, 0, 0, 0, 0] from by decide]
  rw [getD_const hall0 (hidx (1/2) (by norm_num) (by norm_num))]
  rw [show createCountMapCore (([60, 60, 60, 60, 60] : List ℤ).headD 0)
    (([60, 60, 60, 60, 60] : List ℤ).tail) = ([60], [5], 60, 5) from by decide]
  rw [show (((([0, 60, 120, 180, 240, 300] : List ℤ).length : ℤ) - 1 - 1)).toNat = 4 from by
    decide]
  norm_num [TsStats.mk.injEq]

theorem s1_ceil : (⌈(6005 / 9 : ℚ)⌉ : ℤ) = 668 := by
  rw [Int.ceil_eq_iff]
  constructor <;> norm_num

/-- The fully evaluated envelope of scenario S1. -/
theorem s1_startEntry_eq :
    startEntry ⟨0, 36000, 0⟩
      ⟨⟨"10.0.0.1", "uuid", "net", "evil.com"⟩, "proxy", 6,
        some [0, 60, 120, 180, 240, 300]⟩
      (Except.ok 0) (Except.ok 0) (Except.ok 0) =
    some
      { uconnproxy := { query := MQuery.empty, selector := Selector.empty }
        beacon :=
          { query := MQuery.pairSet
              { connection_count := 6, proxy := "proxy", src_network_name := "net"
                ts_range := 0, ts_mode := 60, ts_mode_count := 5
                ts_intervals := [60], ts_interval_counts := [5]
                ts_dispersion := 0, ts_skew := 0, ts_conns_score := 1/600
                ts_score := 668/1000, tslist := [0, 60, 120, 180, 240, 300]
                score := 668/1000, cid := 0, strobeFQDN := false }
            selector := Selector.pair ⟨"10.0.0.1", "uuid", "net", "evil.com"⟩ }
        hostBeacon :=
          { query := MQuery.pushDat (668/1000) "evil.com" 0
            selector := Selector.src ⟨"10.0.0.1", "uuid", "net"⟩ } } := by
  have h2form : 2 ≤ ([0, 60, 120, 180, 240, 300] : List ℤ).length := by decide
  simp only [startEntry, analyzeTS_eq_total _ h2form, s1_stats, hostBeaconQuery,
    Hosts.unpairSrc]
  norm_num [s1_ceil, Update.mk.injEq, UpdateInfo.mk.injEq, PairRecord.mk.injEq]

/-- C3 counterexample: in scenario S1 the emitted score is not 0.667 (it is
0.668), refuting the claim as stated. -/
theorem s1_scenario_claim_false :
    ¬ (∃ u r, startEntry ⟨0, 36000, 0⟩
        ⟨⟨"10.0.0.1", "uuid", "net", "evil.com"⟩, "proxy", 6,
          some [0, 60, 120, 180, 240, 300]⟩
        (Except.ok 0) (Except.ok 0) (Except.ok 0) = some u ∧
      u.beacon.query = MQuery.pairSet r ∧
      r.ts_skew = 0 ∧ r.ts_dispersion = 0 ∧ r.score = 667/1000) := by
  rintro ⟨u, r, hu, hq, _, _, hscore⟩
  have hueq := Option.some.inj (hu.symm.trans s1_startEntry_eq)
  subst hueq
  simp only [MQuery.pairSet.injEq] at hq
  subst hq
  norm_num at hscore

/-- C3 (amended): scenario S1 yields skew = 0 and dispersion = 0 (hence
skewScore = madScore = 1), and the emitted score is 0.668. -/
theorem s1_scenario_amended :
    ∃ u r, startEntry ⟨0, 36000, 0⟩
        ⟨⟨"10.0.0.1", "uuid", "net", "evil.com"⟩, "proxy", 6,
          some [0, 60, 120, 180, 240, 300]⟩
        (Except.ok 0) (Except.ok 0) (Except.ok 0) = some u ∧
      u.beacon.query = MQuery.pairSet r ∧
      r.ts_skew = 0 ∧ r.ts_dispersion = 0 ∧ r.score = 668/1000 :=
  ⟨_, _, s1_startEntry_eq, rfl, rfl, rfl, rfl⟩

end BeaconProxy
